import Mathlib

/-!
# ArmNative: the native rewriter factory

Verification development for `src/Arch/ArmNative/ArmNative.cpp`.  The file
exports one function,

    INativeRewriter * CreateNativeRewriter(
        const uint8_t * rawBytes, uint32_t length, uint32_t offset,
        uint64_t address, INativeRtlEmitter * m, INativeRewriterHost * host)
    {
        return new ArmRewriter(rawBytes + offset, length - offset, address, m, host);
    }

The embedding is state passing over a heap of `ArmRewriter` instances.

* Pointers are machine addresses (`Nat`), `0` being the null pointer.  Pointer
  arithmetic inside one buffer (or one past its end) does not wrap, so
  `rawBytes + offset` is plain addition of addresses.
* `uint32_t` values are naturals below `2 ^ 32`; `length - offset` is the
  unsigned 32 bit subtraction, which wraps modulo `2 ^ 32`.
* `new` allocates a fresh instance and yields a pointer to it that is never
  null (running out of memory is signalled by an exception, not by a null
  pointer, and is outside this model).
* Class `ArmRewriter` itself is not part of the sources.  Where a property
  speaks about what an instance does after construction, its driver is
  modelled from the specification, both as a loop over the view and as a
  state machine pulled by the host, over an arbitrary translation function.
-/

namespace ArmNative

/-! ## Data model -/

/-- A pointer is a machine address; the null pointer is address `0`. -/
abbrev Ptr := Nat

/-- One byte (`uint8_t`). -/
abbrev Byte := Fin 256

/-- Byte addressed memory. -/
abbrev Memory := Nat → Byte

/-- C indexing through a byte pointer: `p[i]`, the byte at address `p + i`. -/
def Memory.index (mem : Memory) (p : Ptr) (i : Nat) : Byte :=
  mem (p + i)

/-- Unsigned 32 bit subtraction `a - b`: the mathematical difference reduced
modulo `2 ^ 32`. -/
def sub32 (a b : Nat) : Nat :=
  (((a : Int) - (b : Int)) % (4294967296 : Int)).toNat

/-- An `ArmRewriter` instance as the factory constructs it: the five arguments
of the constructor call `ArmRewriter(rawBytes, length, address, m, host)`.
The first two are the borrowed byte view (start pointer and number of bytes),
then the load address, the emission sink and the host query service. -/
structure ArmRewriter where
  rawBytes : Ptr
  length : Nat
  address : Nat
  m : Ptr
  host : Ptr
  deriving DecidableEq, Repr

/-- The free store: the instances created by `new` so far.  The instance stored
at list position `k` lives at pointer `k + 1`, so no instance lives at the null
pointer. -/
structure Heap where
  objects : List ArmRewriter
  deriving DecidableEq, Repr

/-- The free store before any allocation. -/
def Heap.empty : Heap := ⟨[]⟩

/-- Number of instances on the free store. -/
def Heap.size (h : Heap) : Nat := h.objects.length

/-- The expression `new T(...)`: store the freshly constructed instance and
return the (non-null) pointer to it together with the grown free store. -/
def Heap.new (h : Heap) (obj : ArmRewriter) : Ptr × Heap :=
  (h.objects.length + 1, ⟨h.objects ++ [obj]⟩)

/-- Dereference an instance pointer: `none` for the null pointer and for
pointers at which no instance lives. -/
def Heap.deref (h : Heap) (p : Ptr) : Option ArmRewriter :=
  if p = 0 then none else h.objects[p - 1]?

/-! ## The factory -/

/-- The exported factory of `ArmNative.cpp`:
`return new ArmRewriter(rawBytes + offset, length - offset, address, m, host);`
It returns the pointer to the new instance and the free store after the call. -/
def CreateNativeRewriter (heap : Heap) (rawBytes : Ptr) (length offset : Nat)
    (address : Nat) (m host : Ptr) : Ptr × Heap :=
  heap.new ⟨rawBytes + offset, sub32 length offset, address, m, host⟩

/-- The instance a call of the factory returns: the returned pointer
dereferenced in the free store after the call. -/
def created (heap : Heap) (rawBytes : Ptr) (length offset : Nat)
    (address : Nat) (m host : Ptr) : Option ArmRewriter :=
  (CreateNativeRewriter heap rawBytes length offset address m host).2.deref
    (CreateNativeRewriter heap rawBytes length offset address m host).1

/-! ## The driver loop -/

/-- Modelled from the spec: the Rewriter Driver of class `ArmRewriter` (declared
in `ArmRewriter.h`, which is not among the sources).  Following the control flow
of the system overview, the driver pulls the bytes at its cursor, hands them to
the decode/resolve/translate chain (`translate`, a pure function of the host,
the bytes at the cursor, the number of bytes remaining and the current
address, yielding the instruction length and its IR statements), emits the
statements, advances the cursor by the instruction length and repeats until
the view is exhausted or an instruction cannot be decoded.  The cursor is
`(p, remaining, addr)`; the first argument bounds the number of pulls. -/
def Driver.run {Stmt : Type}
    (translate : Ptr → (Nat → Byte) → Nat → Nat → Option (Nat × List Stmt))
    (mem : Memory) (host : Ptr) : Nat → Ptr → Nat → Nat → List Stmt
  | 0, _, _, _ => []
  | fuel + 1, p, remaining, addr =>
    if remaining = 0 then []
    else
      match translate host (fun i => mem.index p i) remaining addr with
      | none => []
      | some (len, stmts) =>
        if len = 0 ∨ remaining < len then []
        else stmts ++ Driver.run translate mem host fuel (p + len) (remaining - len) (addr + len)

/-- Modelled from the spec: one whole rewriting pass of an `ArmRewriter`
instance (the class body is not among the sources).  The driver starts Ready
with its cursor at relative offset 0 of the instance view and at the instance
load address; every instruction consumes at least one byte, so as many pulls
as the view has bytes suffice. -/
def ArmRewriter.rewrite {Stmt : Type}
    (translate : Ptr → (Nat → Byte) → Nat → Nat → Option (Nat × List Stmt))
    (mem : Memory) (r : ArmRewriter) : List Stmt :=
  Driver.run translate mem r.host r.length r.rawBytes r.length r.address

/-- Modelled from the spec: the four states of the Rewriter Driver state machine
(class `ArmRewriter`, not among the sources). -/
inductive DriverState where
  | Ready
  | Emitting
  | Exhausted
  | Faulted
  deriving DecidableEq, Repr

/-- Modelled from the spec: the mutable part of one driver instance, the
Rewriter Cursor (current byte offset relative to the view, current address,
remaining length) together with the state of the state machine.  It belongs
to class `ArmRewriter`, whose body is not among the sources. -/
structure Cursor where
  state : DriverState
  offset : Nat
  address : Nat
  remaining : Nat
  deriving DecidableEq, Repr

/-- Modelled from the spec: the initial driver state set up by the
`ArmRewriter` constructor (not among the sources): Ready, with the cursor at
relative offset 0 of the view and at the given load address. -/
def ArmRewriter.start (r : ArmRewriter) : Cursor :=
  ⟨DriverState.Ready, 0, r.address, r.length⟩

/-- Modelled from the spec: one pull of the iteration contract of class
`ArmRewriter` (not among the sources), as a transition of the driver state
machine.  A terminal driver stays as it is and emits nothing.  Otherwise the
driver is Exhausted when no byte remains, Faulted when the instruction at the
cursor cannot be decoded or does not fit into the remaining bytes, and else it
emits the statements of the instruction and advances the cursor by its length,
becoming Exhausted when the cursor reaches the end of the view exactly and
staying Emitting when bytes remain. -/
def Driver.pull {Stmt : Type}
    (translate : Ptr → (Nat → Byte) → Nat → Nat → Option (Nat × List Stmt))
    (mem : Memory) (r : ArmRewriter) (c : Cursor) : Cursor × List Stmt :=
  if c.state = DriverState.Exhausted ∨ c.state = DriverState.Faulted then (c, [])
  else if c.remaining = 0 then (⟨DriverState.Exhausted, c.offset, c.address, c.remaining⟩, [])
  else
    match translate r.host (fun i => mem.index (r.rawBytes + c.offset) i) c.remaining c.address with
    | none => (⟨DriverState.Faulted, c.offset, c.address, c.remaining⟩, [])
    | some (len, stmts) =>
      if len = 0 ∨ c.remaining < len then
        (⟨DriverState.Faulted, c.offset, c.address, c.remaining⟩, [])
      else
        (⟨if len = c.remaining then DriverState.Exhausted else DriverState.Emitting,
          c.offset + len, c.address + len, c.remaining - len⟩, stmts)

/-- The driver state after `n` pulls from cursor `c`, with the statements the
pulls emitted, in emission order. -/
def Driver.pulls {Stmt : Type}
    (translate : Ptr → (Nat → Byte) → Nat → Nat → Option (Nat × List Stmt))
    (mem : Memory) (r : ArmRewriter) : Nat → Cursor → Cursor × List Stmt
  | 0, c => (c, [])
  | n + 1, c =>
    ((Driver.pulls translate mem r n (Driver.pull translate mem r c).1).1,
      (Driver.pull translate mem r c).2
        ++ (Driver.pulls translate mem r n (Driver.pull translate mem r c).1).2)

/-- One statement arriving at an emission sink: the instance that pushed it,
the sink it was pushed to, and the statement. -/
structure Emission (Stmt : Type) where
  emitter : Ptr
  sink : Ptr
  stmt : Stmt

/-- The state shared by all rewriter instances of a host: the cursor of every
instance that has been pulled (an instance never pulled is still in its
initial state) and the statements pushed to the sinks so far, in order. -/
structure World (Stmt : Type) where
  cursors : Ptr → Option Cursor
  trace : List (Emission Stmt)

/-- The world before any pull. -/
def World.fresh {Stmt : Type} : World Stmt := ⟨fun _ => none, []⟩

/-- Modelled from the spec: the host pulls the instance at pointer `p` once
(class `ArmRewriter` is not among the sources).  The pull runs on the cursor
of that instance, stores the new cursor back into the instance, and pushes the
emitted statements to the sink the instance was constructed with.  Pulling a
pointer at which no instance lives does nothing. -/
def World.pull {Stmt : Type}
    (translate : Ptr → (Nat → Byte) → Nat → Nat → Option (Nat × List Stmt))
    (mem : Memory) (heap : Heap) (w : World Stmt) (p : Ptr) : World Stmt :=
  match heap.deref p with
  | none => w
  | some r =>
    ⟨fun q => if q = p then
        some (Driver.pull translate mem r ((w.cursors p).getD r.start)).1
      else w.cursors q,
      w.trace ++ (Driver.pull translate mem r ((w.cursors p).getD r.start)).2.map
        (fun st => ⟨p, r.m, st⟩)⟩

/-- The host pulls the instances in the order of the schedule `sched`, which
may interleave the pulls of several instances in any way. -/
def World.run {Stmt : Type}
    (translate : Ptr → (Nat → Byte) → Nat → Nat → Option (Nat × List Stmt))
    (mem : Memory) (heap : Heap) (w : World Stmt) (sched : List Ptr) : World Stmt :=
  sched.foldl (World.pull translate mem heap) w

/-- The IR statement sequence the instance at pointer `p` has yielded. -/
def World.emitted {Stmt : Type} (w : World Stmt) (p : Ptr) : List Stmt :=
  (w.trace.filter (fun e => decide (e.emitter = p))).map Emission.stmt

/-- The IR statement sequence the sink at pointer `m` has received. -/
def World.received {Stmt : Type} (w : World Stmt) (m : Ptr) : List Stmt :=
  (w.trace.filter (fun e => decide (e.sink = m))).map Emission.stmt

/-- A sample translation: the instruction is one byte long when its first byte
is even and two bytes long when it is odd, and it translates to one statement,
the pair of its address and its first byte. -/
def sampleTranslate : Ptr → (Nat → Byte) → Nat → Nat → Option (Nat × List (Nat × Nat)) :=
  fun _ view _ addr => some (1 + (view 0).val % 2, [(addr, (view 0).val)])

/-- A sample memory whose byte at address `a` is `a mod 256`. -/
def sampleMemory : Memory := fun a => ⟨a % 256, Nat.mod_lt a (by decide)⟩

/-! ## Auxiliary lemmas -/

theorem sub32_of_le {a b : Nat} (ha : a < 4294967296) (hb : b ≤ a) :
    sub32 a b = a - b := by
  unfold sub32
  omega

theorem sub32_of_lt {a b : Nat} (hb : b < 4294967296) (hab : a < b) :
    sub32 a b = 4294967296 + a - b := by
  unfold sub32
  omega

theorem sub32_self (a : Nat) : sub32 a a = 0 := by
  unfold sub32
  omega

theorem sub32_lt (a b : Nat) : sub32 a b < 4294967296 := by
  unfold sub32
  omega

theorem Heap.new_fst_ne_zero (h : Heap) (obj : ArmRewriter) : (h.new obj).1 ≠ 0 := by
  simp [Heap.new]

theorem Heap.deref_new (h : Heap) (obj : ArmRewriter) :
    (h.new obj).2.deref (h.new obj).1 = some obj := by
  simp [Heap.new, Heap.deref]

theorem Heap.size_new (h : Heap) (obj : ArmRewriter) :
    (h.new obj).2.size = h.size + 1 := by
  simp [Heap.new, Heap.size]

theorem Heap.deref_new_of_deref (h : Heap) (obj old : ArmRewriter) (p : Ptr)
    (hp : h.deref p = some old) : (h.new obj).2.deref p = some old := by
  unfold Heap.deref at hp ⊢
  by_cases h0 : p = 0
  · simp [h0] at hp
  · simp only [h0, if_false] at hp ⊢
    have hlt : p - 1 < h.objects.length := by
      rcases Nat.lt_or_ge (p - 1) h.objects.length with hl | hl
      · exact hl
      · rw [List.getElem?_eq_none hl] at hp
        cases hp
    simp only [Heap.new]
    rw [List.getElem?_append_left hlt]
    exact hp

theorem created_eq (heap : Heap) (rawBytes : Ptr) (length offset : Nat)
    (address : Nat) (m host : Ptr) :
    created heap rawBytes length offset address m host
      = some ⟨rawBytes + offset, sub32 length offset, address, m, host⟩ := by
  unfold created CreateNativeRewriter
  exact Heap.deref_new _ _

/-! ## The driver state machine -/

/-- A terminal driver (Exhausted or Faulted) ignores a pull. -/
theorem Driver.pull_halted {Stmt : Type}
    (translate : Ptr → (Nat → Byte) → Nat → Nat → Option (Nat × List Stmt))
    (mem : Memory) (r : ArmRewriter) (c : Cursor)
    (h : c.state = DriverState.Exhausted ∨ c.state = DriverState.Faulted) :
    Driver.pull translate mem r c = (c, []) := by
  unfold Driver.pull
  rw [if_pos h]

/-- A terminal driver ignores any number of pulls. -/
theorem Driver.pulls_halted {Stmt : Type}
    (translate : Ptr → (Nat → Byte) → Nat → Nat → Option (Nat × List Stmt))
    (mem : Memory) (r : ArmRewriter) (n : Nat) (c : Cursor)
    (h : c.state = DriverState.Exhausted ∨ c.state = DriverState.Faulted) :
    Driver.pulls translate mem r n c = (c, []) := by
  induction n with
  | zero => rfl
  | succ n ih =>
    unfold Driver.pulls
    rw [Driver.pull_halted translate mem r c h, ih]
    rfl

/-- Pulling `n + 1` times is pulling `n` times and then once more. -/
theorem Driver.pulls_succ {Stmt : Type}
    (translate : Ptr → (Nat → Byte) → Nat → Nat → Option (Nat × List Stmt))
    (mem : Memory) (r : ArmRewriter) (n : Nat) (c : Cursor) :
    Driver.pulls translate mem r (n + 1) c
      = ((Driver.pull translate mem r (Driver.pulls translate mem r n c).1).1,
          (Driver.pulls translate mem r n c).2
            ++ (Driver.pull translate mem r (Driver.pulls translate mem r n c).1).2) := by
  induction n generalizing c with
  | zero => simp [Driver.pulls]
  | succ n ih =>
    rw [Driver.pulls, ih]
    simp [Driver.pulls, List.append_assoc]

/-- The driver loop over an empty view emits nothing. -/
theorem Driver.run_zero_remaining {Stmt : Type}
    (translate : Ptr → (Nat → Byte) → Nat → Nat → Option (Nat × List Stmt))
    (mem : Memory) (host : Ptr) (fuel : Nat) (p : Ptr) (addr : Nat) :
    Driver.run translate mem host fuel p 0 addr = [] := by
  cases fuel <;> simp [Driver.run]

/-- The state machine refines the driver loop: from a cursor that is not Faulted,
and has no byte left if it is Exhausted, pulling at least as often as bytes
remain emits exactly the statements of the loop run from that cursor. -/
theorem Driver.pulls_eq_run {Stmt : Type}
    (translate : Ptr → (Nat → Byte) → Nat → Nat → Option (Nat × List Stmt))
    (mem : Memory) (r : ArmRewriter) (n : Nat) :
    ∀ (c : Cursor) (fuel : Nat), c.state ≠ DriverState.Faulted →
      (c.state = DriverState.Exhausted → c.remaining = 0) →
      c.remaining ≤ n → c.remaining ≤ fuel →
      (Driver.pulls translate mem r n c).2
        = Driver.run translate mem r.host fuel (r.rawBytes + c.offset) c.remaining c.address := by
  induction n with
  | zero =>
    intro c fuel _ _ hn _
    have h0 : c.remaining = 0 := Nat.le_zero.mp hn
    rw [h0, Driver.run_zero_remaining]
    rfl
  | succ n ih =>
    intro c fuel hF hE hn hfuel
    by_cases hX : c.state = DriverState.Exhausted
    · rw [Driver.pulls_halted translate mem r _ c (Or.inl hX), hE hX,
        Driver.run_zero_remaining]
    · have hact : ¬ (c.state = DriverState.Exhausted ∨ c.state = DriverState.Faulted) := by
        rintro (h | h)
        · exact hX h
        · exact hF h
      by_cases h0 : c.remaining = 0
      · rw [h0, Driver.run_zero_remaining]
        simp only [Driver.pulls, Driver.pull, if_neg hact, if_pos h0]
        rw [Driver.pulls_halted translate mem r n _ (Or.inl rfl)]
        rfl
      · obtain ⟨fuel, rfl⟩ : ∃ f, fuel = f + 1 := ⟨fuel - 1, by omega⟩
        simp only [Driver.pulls, Driver.pull, Driver.run, if_neg hact, if_neg h0]
        cases ht : translate r.host (fun i => mem.index (r.rawBytes + c.offset) i)
            c.remaining c.address with
        | none =>
          simp only []
          rw [Driver.pulls_halted translate mem r n _ (Or.inr rfl)]
          rfl
        | some res =>
          obtain ⟨len, stmts⟩ := res
          simp only []
          by_cases hbad : len = 0 ∨ c.remaining < len
          · simp only [if_pos hbad]
            rw [Driver.pulls_halted translate mem r n _ (Or.inr rfl)]
            rfl
          · simp only [if_neg hbad]
            have hlen : 0 < len ∧ len ≤ c.remaining := by omega
            rw [ih _ fuel]
            · simp only [Nat.add_assoc]
            · simp only []
              split <;> simp
            · simp only []
              intro hs
              split at hs
              · omega
              · cases hs
            · simp only []; omega
            · simp only []; omega

/-- The statements of a batch pushed by instance `q` that stem from instance `p`. -/
theorem emitted_tagged {Stmt : Type} (q m p : Ptr) (l : List Stmt) :
    ((l.map (fun st => (⟨q, m, st⟩ : Emission Stmt))).filter
        (fun e => decide (e.emitter = p))).map Emission.stmt
      = if q = p then l else [] := by
  by_cases h : q = p
  · simp [h, List.filter_map, Function.comp_def]
  · simp [h, List.filter_map, Function.comp_def]

/-- One pull of the instance at `q` moves that instance one pull further along its
run in isolation and leaves every other instance where it was. -/
theorem World.pull_solo {Stmt : Type}
    (translate : Ptr → (Nat → Byte) → Nat → Nat → Option (Nat × List Stmt))
    (mem : Memory) (heap : Heap) (w : World Stmt) (k : Ptr → Nat) (q : Ptr)
    (hw : ∀ p r, heap.deref p = some r →
      (w.cursors p).getD r.start = (Driver.pulls translate mem r (k p) r.start).1
        ∧ w.emitted p = (Driver.pulls translate mem r (k p) r.start).2) :
    ∀ p r, heap.deref p = some r →
      ((World.pull translate mem heap w q).cursors p).getD r.start
          = (Driver.pulls translate mem r (k p + if q = p then 1 else 0) r.start).1
        ∧ (World.pull translate mem heap w q).emitted p
          = (Driver.pulls translate mem r (k p + if q = p then 1 else 0) r.start).2 := by
  intro p r hp
  unfold World.pull
  cases hq : heap.deref q with
  | none =>
    have hne : q ≠ p := by
      rintro rfl
      rw [hp] at hq
      cases hq
    simpa [hne] using hw p r hp
  | some rq =>
    by_cases hqp : q = p
    · subst hqp
      have hr : rq = r := by
        rw [hp] at hq
        exact (Option.some.inj hq).symm
      subst hr
      obtain ⟨hc, he⟩ := hw q rq hp
      simp only [if_true, Driver.pulls_succ, World.emitted, List.filter_append,
        List.map_append, emitted_tagged, Option.getD_some]
      rw [hc]
      refine ⟨rfl, ?_⟩
      rw [← he]
      rfl
    · have hpq : ¬ p = q := fun h => hqp h.symm
      obtain ⟨hc, he⟩ := hw p r hp
      simp only [if_neg hqp, if_neg hpq, World.emitted, List.filter_append, List.map_append,
        emitted_tagged, List.append_nil, Nat.add_zero]
      exact ⟨hc, he⟩

/-- Under any schedule every instance has the cursor and has emitted the statements
of a driver running alone for as many pulls as the schedule gave it. -/
theorem World.run_solo {Stmt : Type}
    (translate : Ptr → (Nat → Byte) → Nat → Nat → Option (Nat × List Stmt))
    (mem : Memory) (heap : Heap) (sched : List Ptr) :
    ∀ (w : World Stmt) (k : Ptr → Nat),
      (∀ p r, heap.deref p = some r →
        (w.cursors p).getD r.start = (Driver.pulls translate mem r (k p) r.start).1
          ∧ w.emitted p = (Driver.pulls translate mem r (k p) r.start).2) →
      ∀ p r, heap.deref p = some r →
        ((World.run translate mem heap w sched).cursors p).getD r.start
            = (Driver.pulls translate mem r (k p + sched.count p) r.start).1
          ∧ (World.run translate mem heap w sched).emitted p
            = (Driver.pulls translate mem r (k p + sched.count p) r.start).2 := by
  induction sched with
  | nil =>
    intro w k hw p r hp
    simpa [World.run] using hw p r hp
  | cons q rest ih =>
    intro w k hw p r hp
    have h1 := World.pull_solo translate mem heap w k q hw
    have h2 := ih (World.pull translate mem heap w q)
      (fun p => k p + if q = p then 1 else 0) h1 p r hp
    have hcount : k p + (q :: rest).count p
        = (k p + if q = p then 1 else 0) + rest.count p := by
      rw [List.count_cons]
      by_cases hqp : q = p
      · simp [hqp]; omega
      · simp [hqp]
    rw [hcount]
    exact h2

/-- One pull pushes statements only to the sink of the pulled instance. -/
theorem World.pull_sink {Stmt : Type}
    (translate : Ptr → (Nat → Byte) → Nat → Nat → Option (Nat × List Stmt))
    (mem : Memory) (heap : Heap) (w : World Stmt) (q : Ptr)
    (hw : ∀ e ∈ w.trace, ∀ r, heap.deref e.emitter = some r → e.sink = r.m) :
    ∀ e ∈ (World.pull translate mem heap w q).trace,
      ∀ r, heap.deref e.emitter = some r → e.sink = r.m := by
  unfold World.pull
  cases hq : heap.deref q with
  | none => exact hw
  | some rq =>
    intro e he r hr
    simp only [List.mem_append, List.mem_map] at he
    rcases he with he | ⟨st, _, rfl⟩
    · exact hw e he r hr
    · simp only at hr ⊢
      rw [hq] at hr
      rw [← Option.some.inj hr]

/-- Under any schedule every statement was pushed to the sink its emitter was
constructed with. -/
theorem World.run_sink {Stmt : Type}
    (translate : Ptr → (Nat → Byte) → Nat → Nat → Option (Nat × List Stmt))
    (mem : Memory) (heap : Heap) (sched : List Ptr) :
    ∀ (w : World Stmt),
      (∀ e ∈ w.trace, ∀ r, heap.deref e.emitter = some r → e.sink = r.m) →
      ∀ e ∈ (World.run translate mem heap w sched).trace,
        ∀ r, heap.deref e.emitter = some r → e.sink = r.m := by
  induction sched with
  | nil => intro w hw; exact hw
  | cons q rest ih =>
    intro w hw
    exact ih _ (World.pull_sink translate mem heap w q hw)

/-! ## The sub-buffer handed to the rewriter -/

/-- Claim C1: for every raw buffer, 32 bit length and offset with
`offset ≤ length`, the factory constructs the rewriter over exactly the
sub-buffer `[offset, length)`: the view has `length - offset` bytes and its
`i`-th byte, for every `i < length - offset`, is byte `offset + i` of the raw
buffer. -/
theorem CreateNativeRewriter_subbuffer (heap : Heap) (mem : Memory) (rawBytes : Ptr)
    (length offset address : Nat) (m host : Ptr)
    (hlen : length < 4294967296) (hoff : offset ≤ length) :
    ∃ r, created heap rawBytes length offset address m host = some r
      ∧ r.length = length - offset
      ∧ ∀ i, i < length - offset →
          mem.index r.rawBytes i = mem.index rawBytes (offset + i) := by
  refine ⟨_, created_eq heap rawBytes length offset address m host, ?_, ?_⟩
  · exact sub32_of_le hlen hoff
  · intro i _
    simp only [Memory.index, Nat.add_assoc]

/-- Witness for C1: an 8 byte buffer at address 100, entered at offset 3. -/
theorem CreateNativeRewriter_subbuffer_witness :
    (8 < 4294967296 ∧ 3 ≤ 8) ∧
    ∃ r, created Heap.empty 100 8 3 4096 7 9 = some r
      ∧ r.length = 8 - 3
      ∧ ∀ i, i < 8 - 3 →
          sampleMemory.index r.rawBytes i = sampleMemory.index 100 (3 + i) :=
  ⟨by decide,
    CreateNativeRewriter_subbuffer Heap.empty sampleMemory 100 8 3 4096 7 9
      (by decide) (by decide)⟩

/-! ## No validation in the factory -/

/-- Counterexample to C2: with `offset > length`, with a null sink and with a
null host (separately and all at once) the factory returns a non-null pointer
and an instance has been constructed. -/
theorem CreateNativeRewriter_validation_counterexample :
    ((CreateNativeRewriter Heap.empty 100 4 5 4096 7 9).1 ≠ 0
      ∧ created Heap.empty 100 4 5 4096 7 9 = some ⟨105, 4294967295, 4096, 7, 9⟩)
    ∧ ((CreateNativeRewriter Heap.empty 100 4 1 4096 0 9).1 ≠ 0
      ∧ created Heap.empty 100 4 1 4096 0 9 = some ⟨101, 3, 4096, 0, 9⟩)
    ∧ ((CreateNativeRewriter Heap.empty 100 4 1 4096 7 0).1 ≠ 0
      ∧ created Heap.empty 100 4 1 4096 7 0 = some ⟨101, 3, 4096, 7, 0⟩)
    ∧ ((CreateNativeRewriter Heap.empty 100 4 5 4096 0 0).1 ≠ 0
      ∧ (CreateNativeRewriter Heap.empty 100 4 5 4096 0 0).2.size = 1) := by
  decide

/-- Claim C2, amended: the factory validates nothing.  Whenever
`offset > length`, or the sink `m` is null, or the host is null, it still
returns a non-null pointer, and exactly one instance has been constructed: the
one built from `rawBytes + offset`, the wrapped 32 bit difference
`length - offset`, and `address`, `m`, `host` as given. -/
theorem CreateNativeRewriter_never_null (heap : Heap) (rawBytes : Ptr)
    (length offset address : Nat) (m host : Ptr)
    (_h : length < offset ∨ m = 0 ∨ host = 0) :
    (CreateNativeRewriter heap rawBytes length offset address m host).1 ≠ 0
      ∧ (CreateNativeRewriter heap rawBytes length offset address m host).2.size
          = heap.size + 1
      ∧ created heap rawBytes length offset address m host
          = some ⟨rawBytes + offset, sub32 length offset, address, m, host⟩ :=
  ⟨Heap.new_fst_ne_zero _ _, Heap.size_new _ _,
    created_eq heap rawBytes length offset address m host⟩

/-- Witness for the amended C2: offset 5 into a 4 byte buffer, null sink. -/
theorem CreateNativeRewriter_never_null_witness :
    ((4 : Nat) < 5 ∨ (0 : Ptr) = 0 ∨ (9 : Ptr) = 0) ∧
    ((CreateNativeRewriter Heap.empty 100 4 5 4096 0 9).1 ≠ 0
      ∧ (CreateNativeRewriter Heap.empty 100 4 5 4096 0 9).2.size = Heap.empty.size + 1
      ∧ created Heap.empty 100 4 5 4096 0 9
          = some ⟨100 + 5, sub32 4 5, 4096, 0, 9⟩) :=
  ⟨by decide, CreateNativeRewriter_never_null Heap.empty 100 4 5 4096 0 9 (by decide)⟩

/-! ## Address, sink and host are passed through -/

/-- Claim C3: for every input the rewriter is built at relative offset 0 of the
sub-buffer and at exactly the given load address.  The instance holds
`address`, `m` and `host` as the factory received them (the address is
`address`, not `address + offset`), the first byte of its view is byte
`offset` of the raw buffer, and the three values do not depend on the free
store, on `rawBytes`, on `length` or on `offset`. -/
theorem CreateNativeRewriter_frame (heap : Heap) (mem : Memory) (rawBytes : Ptr)
    (length offset address : Nat) (m host : Ptr) :
    ∃ r, created heap rawBytes length offset address m host = some r
      ∧ r.address = address ∧ r.m = m ∧ r.host = host
      ∧ mem.index r.rawBytes 0 = mem.index rawBytes offset
      ∧ ∀ (heap2 : Heap) (rawBytes2 : Ptr) (length2 offset2 : Nat),
          ∃ r2, created heap2 rawBytes2 length2 offset2 address m host = some r2
            ∧ r2.address = r.address ∧ r2.m = r.m ∧ r2.host = r.host := by
  refine ⟨_, created_eq heap rawBytes length offset address m host,
    rfl, rfl, rfl, ?_, ?_⟩
  · simp only [Memory.index, Nat.add_zero]
  · intro heap2 rawBytes2 length2 offset2
    exact ⟨_, created_eq heap2 rawBytes2 length2 offset2 address m host, rfl, rfl, rfl⟩

/-! ## Independent instances -/

/-- Claim C4: two calls of the factory with equal arguments, the second on the
free store the first one left, construct two distinct instances with the same
initial state: view pointer `rawBytes + offset`, view length the 32 bit
difference `length - offset`, and address, sink and host as given.  That state
does not depend on the free store, and the calls add these two instances and
leave every earlier instance as it was.  However the host interleaves its
pulls, each instance yields the statements of a driver running alone for as
many pulls as the instance received, pushed to the sink `m`: after equally
many pulls the two instances have yielded the same IR statement sequence, and
once an instance has been pulled as often as its view has bytes, that sequence
is the one of the whole rewriting pass over the sub-buffer. -/
theorem CreateNativeRewriter_deterministic (heap : Heap) (mem : Memory) (rawBytes : Ptr)
    (length offset address : Nat) (m host : Ptr) (Stmt : Type)
    (translate : Ptr → (Nat → Byte) → Nat → Nat → Option (Nat × List Stmt))
    (sched : List Ptr) :
    let first := CreateNativeRewriter heap rawBytes length offset address m host
    let second := CreateNativeRewriter first.2 rawBytes length offset address m host
    let inst : ArmRewriter := ⟨rawBytes + offset, sub32 length offset, address, m, host⟩
    let w := World.run translate mem second.2 World.fresh sched
    first.1 ≠ second.1
      ∧ second.2.deref first.1 = some inst
      ∧ second.2.deref second.1 = some inst
      ∧ (∀ heap2 : Heap, created heap2 rawBytes length offset address m host = some inst)
      ∧ second.2.size = heap.size + 2
      ∧ (∀ p old, heap.deref p = some old → second.2.deref p = some old)
      ∧ w.emitted first.1
          = (Driver.pulls translate mem inst (sched.count first.1) inst.start).2
      ∧ w.emitted second.1
          = (Driver.pulls translate mem inst (sched.count second.1) inst.start).2
      ∧ (sched.count first.1 = sched.count second.1 →
          w.emitted first.1 = w.emitted second.1)
      ∧ (sub32 length offset ≤ sched.count first.1 →
          w.emitted first.1 = inst.rewrite translate mem)
      ∧ (sub32 length offset ≤ sched.count second.1 →
          w.emitted second.1 = inst.rewrite translate mem)
      ∧ (∀ e ∈ w.trace, e.emitter = first.1 ∨ e.emitter = second.1 → e.sink = m) := by
  intro first second inst w
  have h1 : first.2.deref first.1 = some inst :=
    created_eq heap rawBytes length offset address m host
  have h2 : second.2.deref second.1 = some inst :=
    created_eq first.2 rawBytes length offset address m host
  have h12 : second.2.deref first.1 = some inst := Heap.deref_new_of_deref _ _ _ _ h1
  have hfresh : ∀ p r, second.2.deref p = some r →
      (((World.fresh : World Stmt).cursors p).getD r.start
          = (Driver.pulls translate mem r 0 r.start).1)
        ∧ (World.fresh : World Stmt).emitted p
          = (Driver.pulls translate mem r 0 r.start).2 := by
    intro p r _
    exact ⟨rfl, rfl⟩
  have hsolo := World.run_solo translate mem second.2 sched World.fresh (fun _ => 0) hfresh
  have e1 : w.emitted first.1
      = (Driver.pulls translate mem inst (sched.count first.1) inst.start).2 := by
    have h := (hsolo first.1 inst h12).2
    rwa [Nat.zero_add] at h
  have e2 : w.emitted second.1
      = (Driver.pulls translate mem inst (sched.count second.1) inst.start).2 := by
    have h := (hsolo second.1 inst h2).2
    rwa [Nat.zero_add] at h
  have hrun : ∀ n, sub32 length offset ≤ n →
      (Driver.pulls translate mem inst n inst.start).2 = inst.rewrite translate mem := by
    intro n hn
    have h := Driver.pulls_eq_run translate mem inst n inst.start (sub32 length offset)
      (by simp [ArmRewriter.start]) (by simp [ArmRewriter.start]) hn (Nat.le_refl _)
    rw [h]
    simp [ArmRewriter.rewrite, ArmRewriter.start, inst]
  have hsink := World.run_sink translate mem second.2 sched (World.fresh : World Stmt)
    (by intro e he; cases he)
  refine ⟨?_, h12, h2, ?_, ?_, ?_, e1, e2, ?_, ?_, ?_, ?_⟩
  · simp [first, second, CreateNativeRewriter, Heap.new]
  · intro heap2
    exact created_eq heap2 rawBytes length offset address m host
  · simp [first, second, CreateNativeRewriter, Heap.new, Heap.size]
  · intro p old hp
    exact Heap.deref_new_of_deref _ _ _ _ (Heap.deref_new_of_deref _ _ _ _ hp)
  · intro hc
    rw [e1, e2, hc]
  · intro hn
    rw [e1, hrun _ hn]
  · intro hn
    rw [e2, hrun _ hn]
  · intro e he hor
    rcases hor with h | h
    · exact hsink e he inst (by rw [h]; exact h12)
    · exact hsink e he inst (by rw [h]; exact h2)

/-- Witness for C4: two equal calls on the empty free store, offset 3 into a
9 byte buffer at address 100, pulled six times each in an interleaved order:
both instances yield the same three statements and the shared sink 7 receives
each of them twice. -/
theorem CreateNativeRewriter_deterministic_witness :
    (World.run sampleTranslate sampleMemory
        (CreateNativeRewriter (CreateNativeRewriter Heap.empty 100 9 3 4096 7 9).2
          100 9 3 4096 7 9).2
        World.fresh [1, 2, 2, 1, 1, 2, 2, 1, 1, 1, 2, 2]).emitted 1
      = [(4096, 103), (4098, 105), (4100, 107)]
    ∧ (World.run sampleTranslate sampleMemory
        (CreateNativeRewriter (CreateNativeRewriter Heap.empty 100 9 3 4096 7 9).2
          100 9 3 4096 7 9).2
        World.fresh [1, 2, 2, 1, 1, 2, 2, 1, 1, 1, 2, 2]).emitted 2
      = [(4096, 103), (4098, 105), (4100, 107)]
    ∧ (World.run sampleTranslate sampleMemory
        (CreateNativeRewriter (CreateNativeRewriter Heap.empty 100 9 3 4096 7 9).2
          100 9 3 4096 7 9).2
        World.fresh [1, 2, 2, 1, 1, 2, 2, 1, 1, 1, 2, 2]).received 7
      = [(4096, 103), (4096, 103), (4098, 105), (4098, 105), (4100, 107), (4100, 107)] := by
  have h := CreateNativeRewriter_deterministic Heap.empty sampleMemory 100 9 3 4096 7 9
    (Nat × Nat) sampleTranslate [1, 2, 2, 1, 1, 2, 2, 1, 1, 1, 2, 2]
  exact ⟨(h.2.2.2.2.2.2.2.2.2.1 (by decide)).trans (by decide),
    (h.2.2.2.2.2.2.2.2.2.2.1 (by decide)).trans (by decide), by decide⟩

/-! ## Entering at the buffer end -/

/-- Claim C5: for every 32 bit length, a call with `offset = length` (the empty
buffer with `offset = length = 0` included) does not fail: the returned pointer
is not null and points to an instance whose sub-buffer has length 0 and starts
at the end of the raw buffer. -/
theorem CreateNativeRewriter_at_end (heap : Heap) (rawBytes : Ptr)
    (length offset address : Nat) (m host : Ptr) (h : offset = length) :
    (CreateNativeRewriter heap rawBytes length offset address m host).1 ≠ 0
      ∧ ∃ r, created heap rawBytes length offset address m host = some r
          ∧ r.length = 0 ∧ r.rawBytes = rawBytes + length := by
  subst h
  exact ⟨Heap.new_fst_ne_zero _ _, _,
    created_eq heap rawBytes offset offset address m host, sub32_self offset, rfl⟩

/-- Witness for C5: the empty buffer, `offset = length = 0`. -/
theorem CreateNativeRewriter_at_end_witness :
    (0 : Nat) = 0 ∧
    ((CreateNativeRewriter Heap.empty 100 0 0 4096 7 9).1 ≠ 0
      ∧ ∃ r, created Heap.empty 100 0 0 4096 7 9 = some r
          ∧ r.length = 0 ∧ r.rawBytes = 100 + 0) :=
  ⟨rfl, CreateNativeRewriter_at_end Heap.empty 100 0 0 4096 7 9 rfl⟩

/-! ## The wrapped view length -/

/-- Claim C6: for all 32 bit `length` and `offset` the view length handed to
the rewriter is `(length - offset) mod 2 ^ 32`; it is at most `length` exactly
when `offset ≤ length`; and when `offset > length` it is
`2 ^ 32 + length - offset`, strictly more than `length`. -/
theorem CreateNativeRewriter_view_length (heap : Heap) (rawBytes : Ptr)
    (length offset address : Nat) (m host : Ptr)
    (hlen : length < 4294967296) (hoff : offset < 4294967296) :
    ∃ r, created heap rawBytes length offset address m host = some r
      ∧ (r.length : Int) = ((length : Int) - (offset : Int)) % (2 ^ 32 : Int)
      ∧ (r.length ≤ length ↔ offset ≤ length)
      ∧ (length < offset →
          r.length = 2 ^ 32 + length - offset ∧ length < r.length) := by
  refine ⟨_, created_eq heap rawBytes length offset address m host, ?_, ?_, ?_⟩
  · show ((sub32 length offset : Nat) : Int) = _
    unfold sub32
    omega
  · show sub32 length offset ≤ length ↔ offset ≤ length
    unfold sub32
    omega
  · intro hlt
    show sub32 length offset = _ ∧ length < sub32 length offset
    unfold sub32
    omega

/-- Witness for C6: offset 5 into a 4 byte buffer wraps to `2 ^ 32 - 1`. -/
theorem CreateNativeRewriter_view_length_witness :
    ((4 : Nat) < 4294967296 ∧ (5 : Nat) < 4294967296) ∧
    ∃ r, created Heap.empty 100 4 5 4096 7 9 = some r
      ∧ (r.length : Int) = ((4 : Nat) - (5 : Nat) : Int) % (2 ^ 32 : Int)
      ∧ (r.length ≤ 4 ↔ 5 ≤ 4)
      ∧ (4 < 5 → r.length = 2 ^ 32 + 4 - 5 ∧ 4 < r.length) :=
  ⟨by decide,
    CreateNativeRewriter_view_length Heap.empty 100 4 5 4096 7 9 (by decide) (by decide)⟩

/-! ## Composition of start offsets -/

/-- Claim C7: start offsets compose.  For a 32 bit `length` and `a + b ≤ length`
the call at `rawBytes` with offset `a + b` constructs the same instance (view
pointer, view length, address, sink, host) as the call at `rawBytes + a` with
length `length - a` and offset `b`; with offset 0 the view is the whole
buffer, of length `length`. -/
theorem CreateNativeRewriter_offsets_compose (heap : Heap) (rawBytes : Ptr)
    (length a b address : Nat) (m host : Ptr)
    (hlen : length < 4294967296) (hab : a + b ≤ length) :
    created heap rawBytes length (a + b) address m host
        = created heap (rawBytes + a) (length - a) b address m host
      ∧ created heap rawBytes length (a + b) address m host
        = some ⟨rawBytes + a + b, length - a - b, address, m, host⟩
      ∧ created heap rawBytes length 0 address m host
        = some ⟨rawBytes, length, address, m, host⟩ := by
  have e1 : sub32 length (a + b) = length - a - b := by
    rw [sub32_of_le hlen hab]; omega
  have e2 : sub32 (length - a) b = length - a - b :=
    sub32_of_le (by omega) (by omega)
  have e3 : sub32 length 0 = length := sub32_of_le hlen (Nat.zero_le _)
  rw [created_eq, created_eq, created_eq, e1, e2, e3, Nat.add_assoc]
  exact ⟨rfl, rfl, rfl⟩

/-- Witness for C7: offsets 2 and 3 into an 8 byte buffer at address 100. -/
theorem CreateNativeRewriter_offsets_compose_witness :
    ((8 : Nat) < 4294967296 ∧ 2 + 3 ≤ 8) ∧
    (created Heap.empty 100 8 (2 + 3) 4096 7 9
        = created Heap.empty (100 + 2) (8 - 2) 3 4096 7 9
      ∧ created Heap.empty 100 8 (2 + 3) 4096 7 9
        = some ⟨100 + 2 + 3, 8 - 2 - 3, 4096, 7, 9⟩
      ∧ created Heap.empty 100 8 0 4096 7 9 = some ⟨100, 8, 4096, 7, 9⟩) :=
  ⟨by decide,
    CreateNativeRewriter_offsets_compose Heap.empty 100 8 2 3 4096 7 9
      (by decide) (by decide)⟩

end ArmNative
